import Mathlib

set_option linter.unusedSectionVars false

/-!
Verification of the identification-decision core of the student
identification system: the FAISS-backed vector index
(`backend/models/vector_db.py`), the enrollment aggregation slice of
`backend/main.py` (`register_student`), the quality estimator and face
alignment of `backend/models/face_detection.py`, and the failure
classifier of `backend/utils/failure_reason.py`.

Modelling conventions.
* Python/NumPy floating-point scalars are modelled by an arbitrary
  linear ordered field `α` (instantiated at `ℚ` for executable
  witnesses and at `ℝ` where square-root identities are needed).
  Floating-point rounding is not modelled.
* `np.linalg.norm` / `faiss.normalize_L2` call the runtime's square
  root; it is passed in as an explicit function parameter `sqrtF`
  (instantiated at `Real.sqrt` over `ℝ`).
* A NumPy vector is a `List α`; the FAISS flat index is the list of
  stored rows in insertion order (position = list index, as in the
  source where positions are assigned from `index.ntotal`).
* The Python dict `self.metadata` (keys `str(idx)`) is an association
  list keyed by `Int` (decimal string keys are in bijection with the
  integers; inserted keys are always the nonnegative `ntotal` values,
  while `search` can report the FAISS padding label `-1`).
* Division by zero follows Lean's total-division convention `x / 0 = 0`
  (noted at every theorem where it could matter).
-/

namespace StudentID

variable {α : Type} [LinearOrderedField α]

/-- Sum of squares of a vector's entries: the quantity under the square
root in `np.linalg.norm(v)` and in `faiss.normalize_L2`. -/
def sumSq : List α → α
  | [] => 0
  | x :: xs => x * x + sumSq xs

/-- Inner product of two vectors, as computed by `faiss.IndexFlatIP`. -/
def dot : List α → List α → α
  | x :: xs, y :: ys => x * y + dot xs ys
  | _, _ => 0

/-- Squared Euclidean distance, as reported by `faiss.IndexFlatL2`
(FAISS returns squared L2 distances for flat indexes). -/
def sqDist : List α → List α → α
  | x :: xs, y :: ys => (x - y) * (x - y) + sqDist xs ys
  | _, _ => 0

/-- `faiss.normalize_L2`: divide each entry by the vector's L2 norm.
FAISS's `fvec_renorm_L2` skips rows whose norm is zero, hence the
guard on `sumSq v = 0`. `sqrtF` is the runtime square root. -/
def normalizeL2 (sqrtF : α → α) (v : List α) : List α :=
  if sumSq v = 0 then v else v.map (fun x => x / sqrtF (sumSq v))

/-- One record of the metadata sidecar: `{'student_id': ..,
'metadata': {..}}` as written by `FAISSVectorDB.add_embedding`.  The
inner metadata dict is kept as an opaque key/value list. -/
structure MetaEntry where
  student_id : String
  meta : List (String × String)
deriving DecidableEq, Repr

/-- The index metric (`'cosine'` or `'l2'`). -/
inductive VMetric
  | cosine
  | l2
deriving DecidableEq, Repr

/-- State of `FAISSVectorDB`: the embedding dimension, metric, the
rows of the flat FAISS index in insertion order, and the metadata
dict keyed by (the integer denoted by) the decimal position string. -/
structure VDB (α : Type) where
  embedding_dim : Nat
  metric : VMetric
  vectors : List (List α)
  metadata : List (Int × MetaEntry)

/-- Python dict lookup `self.metadata.get(str(k))` / membership
`str(k) in self.metadata`. -/
def dictGet (md : List (Int × MetaEntry)) (k : Int) : Option MetaEntry :=
  (md.find? (fun pr => pr.1 == k)).map (fun pr => pr.2)

/-- Python dict assignment `self.metadata[str(k)] = v`: overwrite in
place when the key exists (dicts keep the original position), append
otherwise. -/
def dictInsert (md : List (Int × MetaEntry)) (k : Int) (v : MetaEntry) :
    List (Int × MetaEntry) :=
  if md.any (fun pr => pr.1 == k) then
    md.map (fun pr => if pr.1 == k then (k, v) else pr)
  else md ++ [(k, v)]

/-- `FAISSVectorDB.add_embedding`: normalize when the metric is
cosine, append the row at position `index.ntotal`, store the metadata
record under that position, return the position. -/
def addEmbedding (sqrtF : α → α) (db : VDB α) (embedding : List α)
    (student_id : String) (metadata : List (String × String)) : VDB α × Int :=
  let e := if db.metric = VMetric.cosine then normalizeL2 sqrtF embedding
           else embedding
  let idx : Int := db.vectors.length
  ({ db with
      vectors := db.vectors ++ [e],
      metadata := dictInsert db.metadata idx ⟨student_id, metadata⟩ },
   idx)

/-- Raw per-entry score of the flat index: inner product for
`IndexFlatIP`, squared L2 distance for `IndexFlatL2`. -/
def entryScore (m : VMetric) (q v : List α) : α :=
  match m with
  | VMetric.cosine => dot q v
  | VMetric.l2 => sqDist q v

/-- All (score, position) pairs of the stored rows against a query. -/
def scorePairs (db : VDB α) (q : List α) : List (α × Int) :=
  db.vectors.enum.map (fun p => (entryScore db.metric q p.2, (p.1 : Int)))

/-- Result ordering of the flat index: descending inner product
(resp. ascending distance), ties by ascending position. -/
def rankLE (m : VMetric) (a b : α × Int) : Bool :=
  match m with
  | VMetric.cosine => decide (b.1 < a.1) || (decide (a.1 = b.1) && decide (a.2 ≤ b.2))
  | VMetric.l2 => decide (a.1 < b.1) || (decide (a.1 = b.1) && decide (a.2 ≤ b.2))

/-- Insert into a list sorted by `le`. -/
def insertRanked (le : α × Int → α × Int → Bool) (x : α × Int) :
    List (α × Int) → List (α × Int)
  | [] => [x]
  | y :: ys => if le x y then x :: y :: ys else y :: insertRanked le x ys

/-- Sort score pairs by `le` (insertion sort). -/
def sortRanked (le : α × Int → α × Int → Bool) : List (α × Int) → List (α × Int)
  | [] => []
  | x :: xs => insertRanked le x (sortRanked le xs)

/-- The largest finite float32; FAISS reports sentinel distances
(`-FLT_MAX`-like for inner product, `FLT_MAX`-like for L2) in result
slots left unfilled when `k` exceeds the number of stored rows. -/
def fltMax : α := (2 - 1 / 2 ^ 23) * 2 ^ 127

/-- Distance placed by FAISS in an unfilled result slot. -/
def padDist (m : VMetric) : α :=
  match m with
  | VMetric.cosine => -fltMax
  | VMetric.l2 => fltMax

/-- `FAISSVectorDB.search`: normalize the query for the cosine metric,
rank all stored rows, return exactly `k` (score, position) pairs,
padding with the sentinel distance and label `-1` when fewer than `k`
rows are stored. -/
def vdbSearch (sqrtF : α → α) (db : VDB α) (q : List α) (k : Nat) :
    List (α × Int) :=
  let q' := if db.metric = VMetric.cosine then normalizeL2 sqrtF q else q
  let ranked := sortRanked (rankLE db.metric) (scorePairs db q')
  let top := ranked.take k
  top ++ List.replicate (k - top.length) (padDist db.metric, (-1 : Int))

/-- Similarity derived from a raw search distance:
identity for cosine (inner product), `1 / (1 + dist)` for L2. -/
def matchSim (m : VMetric) (d : α) : α :=
  match m with
  | VMetric.cosine => d
  | VMetric.l2 => 1 / (1 + d)

/-- One element of the list returned by `search_with_threshold`: the
copied metadata record plus the `similarity` and `faiss_index` keys. -/
structure MatchResult (α : Type) where
  student_id : String
  meta : List (String × String)
  similarity : α
  faiss_index : Int
deriving DecidableEq, Repr

/-- One iteration of the result loop of `search_with_threshold`: keep
the entry when `similarity >= threshold and str(idx) in
self.metadata`, attaching the stored record plus the similarity and
the position. -/
def swtStep (m : VMetric) (md : List (Int × MetaEntry)) (threshold : α)
    (acc : List (MatchResult α)) (p : α × Int) : List (MatchResult α) :=
  let sim := matchSim m p.1
  if threshold ≤ sim then
    match dictGet md p.2 with
    | some e => acc ++ [⟨e.student_id, e.meta, sim, p.2⟩]
    | none => acc
  else acc

/-- `FAISSVectorDB.search_with_threshold`: run `search`, then keep, in
order, the entries that pass the threshold-and-membership check. -/
def searchWithThreshold (sqrtF : α → α) (db : VDB α) (q : List α)
    (threshold : α) (k : Nat) : List (MatchResult α) :=
  (vdbSearch sqrtF db q k).foldl (swtStep db.metric db.metadata threshold) []

/-- One iteration of the position loop of `remove_embedding`: for a
position other than `idx`, reconstruct the stored row and, when the
position has a metadata record, re-key that record at the next
consecutive new position. -/
def removeStep (db : VDB α) (idx : Int)
    (acc : List (List α) × List (Int × MetaEntry) × Nat) (i : Nat) :
    List (List α) × List (Int × MetaEntry) × Nat :=
  if (i : Int) = idx then acc
  else
    match dictGet db.metadata (i : Int) with
    | some e =>
        (acc.1 ++ [db.vectors.getD i []],
         acc.2.1 ++ [((acc.2.2 : Int), e)],
         acc.2.2 + 1)
    | none =>
        (acc.1 ++ [db.vectors.getD i []], acc.2.1, acc.2.2)

/-- `FAISSVectorDB.remove_embedding`: walk positions `0 ..
index.ntotal - 1` collecting every other entry.  Only when at least
one row was collected (`if all_embeddings:`) are the flat index and
the metadata replaced; otherwise — removing the sole entry — the
state is left untouched. -/
def removeEmbedding (db : VDB α) (idx : Int) : VDB α :=
  let acc := (List.range db.vectors.length).foldl (removeStep db idx)
    (([] : List (List α)), ([] : List (Int × MetaEntry)), (0 : Nat))
  if acc.1.isEmpty then db
  else { db with vectors := acc.1, metadata := acc.2.1 }

/-- `FAISSVectorDB.__init__`: load the index rows from the index file
when present (a fresh empty flat index otherwise) and the metadata
dict from the metadata file when present (`{}` otherwise).  The two
are loaded independently; the constructor performs no cross-check of
their entry counts. -/
def loadDB (embedding_dim : Nat) (metric : VMetric)
    (storedVectors : Option (List (List α)))
    (storedMetadata : Option (List (Int × MetaEntry))) : VDB α :=
  { embedding_dim := embedding_dim,
    metric := metric,
    vectors := storedVectors.getD [],
    metadata := storedMetadata.getD [] }

/-- `FAISSVectorDB.get_statistics`. -/
structure Stats where
  total_vectors : Nat
  embedding_dim : Nat
  metric : VMetric
  metadata_entries : Nat
deriving DecidableEq, Repr

/-- `FAISSVectorDB.get_statistics`: entry count of the flat index,
dimension, metric, and entry count of the metadata dict. -/
def getStatistics (db : VDB α) : Stats :=
  ⟨db.vectors.length, db.embedding_dim, db.metric, db.metadata.length⟩

/-! ### `backend/utils/failure_reason.py` -/

/-- The `status` values returned by `classify_failure`. -/
inductive FailStatus
  | noFace
  | faceTooSmall
  | embeddingFailed
  | lowSimilarity
  | unknown
deriving DecidableEq, Repr

/-- A detection bounding box `[x, y, width, height]`. -/
structure FaceBox where
  x : Int
  y : Int
  w : Int
  h : Int
deriving DecidableEq, Repr

/-- The face-detection record handed around the pipeline: bounding box
and detector confidence (the keypoints are not consulted by the
modelled code and are elided). -/
structure FaceInfo (α : Type) where
  box : FaceBox
  confidence : α
deriving DecidableEq, Repr

/-- `classify_failure`: the ordered, first-match-wins decision table.
Returns the `status` field of the returned dict (the `reason` and
`advice` strings, which embed formatted numbers, are elided).  Mirrors
the source order: no face → small box → missing embedding → norm
below `1e-3` → similarity below threshold → unknown. -/
def classifyFailure (sqrtF : α → α) (face_detected : Bool)
    (face_info : Option (FaceInfo α)) (embedding : Option (List α))
    (similarity : Option α) (threshold : α) : FailStatus :=
  if face_detected = false then FailStatus.noFace
  else if (match face_info with
           | some fi => decide (fi.box.w < 50) || decide (fi.box.h < 50)
           | none => false) then FailStatus.faceTooSmall
  else
    match embedding with
    | none => FailStatus.embeddingFailed
    | some e =>
      if sqrtF (sumSq e) < 1 / 1000 then FailStatus.embeddingFailed
      else
        match similarity with
        | some s => if s < threshold then FailStatus.lowSimilarity
                    else FailStatus.unknown
        | none => FailStatus.unknown

/-! ### `backend/models/face_detection.py` -/

/-- `FaceDetector.align_face` on an image of height `imgH` and width
`imgW`: reject boxes under the 50 px minimum outright, then expand by
a 20 % margin (the float product `int(width * 0.2)` is modelled by
the exact integer division `width / 5`), clamp to the image, and
reject empty crops.  Returns the crop rectangle (the pixel resampling
to the canonical 112×112 size carries no information the verified
claims depend on). -/
def alignFace (imgH imgW : Int) (fi : FaceInfo α) : Option FaceBox :=
  if fi.box.w < 50 ∨ fi.box.h < 50 then none
  else
    let margin := fi.box.w / 5
    let x := max 0 (fi.box.x - margin)
    let y := max 0 (fi.box.y - margin)
    let w := min (imgW - x) (fi.box.w + 2 * margin)
    let h := min (imgH - y) (fi.box.h + 2 * margin)
    if w ≤ 0 ∨ h ≤ 0 then none
    else some ⟨x, y, w, h⟩

/-- `FaceDetector.estimate_quality`: the mean of the four sub-scores.
`lapVar` is the Laplacian (edge-energy) variance of the face crop and
`brightness` the mean pixel intensity of the face region, both
supplied by the opaque image routines. -/
def estimateQuality (confidence : α) (bw bh imgH imgW : Int)
    (lapVar brightness : α) : α :=
  let sizeScore := min (((bw * bh : Int) : α) / ((imgH * imgW : Int) : α)) (1 / 2) * 2
  let sharpness := min (lapVar / 500) 1
  let brightScore := 1 - |brightness - 128| / 128
  (confidence + sizeScore + sharpness + brightScore) / 4

/-- The quality slice of `PreprocessingPipeline.preprocess_image`:
`estimate_quality` runs only after `detect_and_align` succeeded; a
detection rejected by `align_face` never reaches quality scoring. -/
def preprocessQuality : Option (FaceInfo α) → Int → Int → α → α → Option α
  | none, _, _, _, _ => none
  | some fi, imgH, imgW, lapVar, brightness =>
    match alignFace imgH imgW fi with
    | none => none
    | some _ => some (estimateQuality fi.confidence fi.box.w fi.box.h imgH imgW
        lapVar brightness)

/-! ### the enrollment slice of `backend/main.py` (`register_student`) -/

/-- `np.mean(embeddings, axis=0)`: element-wise sum divided by the
number of vectors. -/
def vecAdd : List α → List α → List α
  | x :: xs, y :: ys => (x + y) :: vecAdd xs ys
  | _, _ => []

/-- Element-wise arithmetic mean of a nonempty family of equal-length
vectors (`np.mean(embeddings, axis=0)`). -/
def npMean (embs : List (List α)) : List α :=
  match embs with
  | [] => []
  | e :: rest => (rest.foldl vecAdd e).map (fun x => x / (embs.length : α))

/-- `np.linalg.norm(v)` with the runtime square root `sqrtF`. -/
def npNorm (sqrtF : α → α) (v : List α) : α := sqrtF (sumSq v)

/-- `final_embedding / np.linalg.norm(final_embedding)`: NumPy divides
with no guard against a zero norm (Lean's `x / 0 = 0` stands in for
the non-finite float entries that NumPy would produce there). -/
def npNormalize (sqrtF : α → α) (v : List α) : List α :=
  v.map (fun x => x / npNorm sqrtF v)

/-- The outcome fields of `schemas.RegistrationResponse` the claims
consult. -/
structure RegResponse where
  success : Bool
  message : String
deriving DecidableEq, Repr

/-- The index-facing tail of `register_student`, starting from the
list of embeddings that survived the per-photo
detect→enhance→embed loop: zero survivors fail with the fixed message
and leave the index untouched; otherwise the embeddings are averaged
(averaging is skipped for a single survivor), normalized with no
degenerate-norm guard, and inserted via `add_embedding`. -/
def registerStudent (sqrtF : α → α) (db : VDB α) (embeddings : List (List α))
    (student_id : String) (metadata : List (String × String)) :
    RegResponse × VDB α :=
  match embeddings with
  | [] =>
    ({ success := false,
       message := "No face detected in any of the photos" }, db)
  | e :: rest =>
    let final_pre := if 0 < rest.length then npMean (e :: rest) else e
    let final_embedding := npNormalize sqrtF final_pre
    let db' := (addEmbedding sqrtF db final_embedding student_id metadata).1
    ({ success := true,
       message := "Student registered successfully with " ++
         toString (e :: rest).length ++ " photo(s)" }, db')

/-! ### Helper lemmas about the `search_with_threshold` result loop -/

lemma swtStep_eq_append (m : VMetric) (md : List (Int × MetaEntry)) (t : α)
    (acc : List (MatchResult α)) (p : α × Int) :
    swtStep m md t acc p = acc ++ swtStep m md t [] p := by
  unfold swtStep
  by_cases h : t ≤ matchSim m p.1
  · simp only [h, if_true]
    cases dictGet md p.2 <;> simp
  · simp [h]

lemma foldl_swtStep_eq_append (m : VMetric) (md : List (Int × MetaEntry))
    (t : α) (l : List (α × Int)) :
    ∀ acc : List (MatchResult α),
      l.foldl (swtStep m md t) acc = acc ++ l.foldl (swtStep m md t) [] := by
  induction l with
  | nil => intro acc; simp
  | cons p l ih =>
    intro acc
    simp only [List.foldl_cons]
    rw [ih (swtStep m md t acc p), ih (swtStep m md t [] p),
        swtStep_eq_append, List.append_assoc]

lemma swtStep_nil_length_le (m : VMetric) (md : List (Int × MetaEntry))
    (t : α) (p : α × Int) :
    (swtStep m md t ([] : List (MatchResult α)) p).length ≤ 1 := by
  unfold swtStep
  by_cases h : t ≤ matchSim m p.1
  · simp only [h, if_true]
    cases dictGet md p.2 <;> simp
  · simp [h]

lemma foldl_swtStep_length (m : VMetric) (md : List (Int × MetaEntry))
    (t : α) (l : List (α × Int)) :
    (l.foldl (swtStep m md t) []).length ≤ l.length := by
  induction l with
  | nil => simp
  | cons p l ih =>
    simp only [List.foldl_cons]
    rw [foldl_swtStep_eq_append, List.length_append]
    have h1 := swtStep_nil_length_le m md t p
    simp only [List.length_cons]
    omega

lemma mem_swtStep_nil (m : VMetric) (md : List (Int × MetaEntry)) (t : α)
    (p : α × Int) (mr : MatchResult α) (hm : mr ∈ swtStep m md t [] p) :
    t ≤ mr.similarity ∧
      dictGet md mr.faiss_index = some ⟨mr.student_id, mr.meta⟩ := by
  unfold swtStep at hm
  by_cases h : t ≤ matchSim m p.1
  · simp only [h, if_true] at hm
    cases he : dictGet md p.2 with
    | none => rw [he] at hm; simp at hm
    | some e =>
      rw [he] at hm
      simp only [List.nil_append, List.mem_singleton] at hm
      subst hm
      exact ⟨h, he⟩
  · simp [h] at hm

lemma mem_foldl_swtStep (m : VMetric) (md : List (Int × MetaEntry)) (t : α)
    (l : List (α × Int)) (mr : MatchResult α)
    (hm : mr ∈ l.foldl (swtStep m md t) []) :
    t ≤ mr.similarity ∧
      dictGet md mr.faiss_index = some ⟨mr.student_id, mr.meta⟩ := by
  induction l with
  | nil => simp at hm
  | cons p l ih =>
    rw [List.foldl_cons, foldl_swtStep_eq_append] at hm
    rcases List.mem_append.mp hm with h | h
    · exact mem_swtStep_nil m md t p mr h
    · exact ih h

lemma vdbSearch_length (sqrtF : α → α) (db : VDB α) (q : List α) (k : Nat) :
    (vdbSearch sqrtF db q k).length = k := by
  simp only [vdbSearch, List.length_append, List.length_replicate,
    List.length_take]
  omega

/-! ### Claim theorems -/

/-- Claim C3: `search_with_threshold` returns at most `k` matches, every
returned match has similarity at least the threshold, and each match
carries the stored metadata record and owner identity of its index
position. -/
theorem search_with_threshold_spec (sqrtF : α → α) (db : VDB α) (q : List α)
    (t : α) (k : Nat) :
    (searchWithThreshold sqrtF db q t k).length ≤ k ∧
    ∀ mr ∈ searchWithThreshold sqrtF db q t k,
      t ≤ mr.similarity ∧
      dictGet db.metadata mr.faiss_index = some ⟨mr.student_id, mr.meta⟩ := by
  constructor
  · have h1 := foldl_swtStep_length db.metric db.metadata t (vdbSearch sqrtF db q k)
    have h2 := vdbSearch_length sqrtF db q k
    unfold searchWithThreshold
    omega
  · intro mr hm
    exact mem_foldl_swtStep db.metric db.metadata t _ mr hm

/-- Witness for C3 at a concrete one-entry cosine index queried with
`k = 2`. -/
theorem search_with_threshold_spec_witness :
    (searchWithThreshold (fun x : ℚ => x)
        ⟨2, VMetric.cosine, [[1, 0]], [(0, ⟨"S1", []⟩)]⟩ [1, 0] 0 2).length ≤ 2 ∧
    ∀ mr ∈ searchWithThreshold (fun x : ℚ => x)
        ⟨2, VMetric.cosine, [[1, 0]], [(0, ⟨"S1", []⟩)]⟩ [1, 0] 0 2,
      (0 : ℚ) ≤ mr.similarity ∧
      dictGet [(0, ⟨"S1", []⟩)] mr.faiss_index = some ⟨mr.student_id, mr.meta⟩ :=
  search_with_threshold_spec (fun x : ℚ => x)
    ⟨2, VMetric.cosine, [[1, 0]], [(0, ⟨"S1", []⟩)]⟩ [1, 0] 0 2

/-- Claim C9: on an index whose metadata keys are all nonnegative (as
produced by `add_embedding`, which keys records by `index.ntotal`),
`search_with_threshold` never returns a match whose position is absent
from the metadata dict; in particular the `-1` padding labels emitted
by the flat index when `k` exceeds the entry count are filtered out. -/
theorem search_filters_padding (sqrtF : α → α) (db : VDB α) (q : List α)
    (t : α) (k : Nat) (hkeys : ∀ pr ∈ db.metadata, 0 ≤ pr.1) :
    ∀ mr ∈ searchWithThreshold sqrtF db q t k,
      (dictGet db.metadata mr.faiss_index).isSome ∧ mr.faiss_index ≠ -1 := by
  intro mr hm
  have h := mem_foldl_swtStep db.metric db.metadata t _ mr hm
  have hsome : (dictGet db.metadata mr.faiss_index).isSome := by
    rw [h.2]; rfl
  refine ⟨hsome, ?_⟩
  have h2 := h.2
  simp only [dictGet] at h2
  obtain ⟨pr, hfind, -⟩ := Option.map_eq_some'.mp h2
  have hmem : pr ∈ db.metadata := List.mem_of_find?_eq_some hfind
  have hkey : pr.1 = mr.faiss_index := by
    have := List.find?_some hfind
    exact of_decide_eq_true this
  have := hkeys pr hmem
  omega

/-- Witness for C9: one stored entry, `k = 3 > 1`, so the two padding
slots with label `-1` are exercised and filtered. -/
theorem search_filters_padding_witness :
    (∀ pr ∈ [((0 : Int), (⟨"S1", []⟩ : MetaEntry))], 0 ≤ pr.1) ∧
    ∀ mr ∈ searchWithThreshold (fun x : ℚ => x)
        ⟨2, VMetric.cosine, [[1, 0]], [(0, ⟨"S1", []⟩)]⟩ [0, 1] 0 3,
      (dictGet [(0, ⟨"S1", []⟩)] mr.faiss_index).isSome ∧ mr.faiss_index ≠ -1 :=
  ⟨by decide,
   search_filters_padding (fun x : ℚ => x)
     ⟨2, VMetric.cosine, [[1, 0]], [(0, ⟨"S1", []⟩)]⟩ [0, 1] 0 3 (by decide)⟩

/-- Counterexample to Claim C2: a persisted pair whose vector store
holds one row while the metadata sidecar is empty is loaded without
any error by `FAISSVectorDB.__init__`, and the mismatched state is
served (`get_statistics` reports 1 vector against 0 metadata entries). -/
theorem load_mismatched_counts_counterexample :
    (getStatistics (loadDB 2 VMetric.cosine (some [[(1 : ℚ), 0]])
        (some []))).total_vectors = 1 ∧
    (getStatistics (loadDB 2 VMetric.cosine (some [[(1 : ℚ), 0]])
        (some []))).metadata_entries = 0 :=
  ⟨rfl, rfl⟩

/-- Claim C2 (amended): loading performs no cross-check at all — the
constructor restores exactly whatever each of the two files contains,
even when their entry counts differ, and the index is served in that
state. -/
theorem load_no_integrity_check (dim : Nat) (m : VMetric)
    (vs : List (List α)) (md : List (Int × MetaEntry)) :
    loadDB dim m (some vs) (some md) = ⟨dim, m, vs, md⟩ := rfl

/-- Counterexample to Claim C5: with zero valid embeddings the failure
message is `"No face detected in any of the photos"`, which differs
from the claimed reason string `"no face detected in any photo"`. -/
theorem register_zero_photos_message_counterexample :
    (registerStudent (fun x : ℚ => x) ⟨128, VMetric.cosine, [], []⟩ [] "S1"
        []).1.message = "No face detected in any of the photos" ∧
    ¬ (registerStudent (fun x : ℚ => x) ⟨128, VMetric.cosine, [], []⟩ [] "S1"
        []).1.message = "no face detected in any photo" := by
  constructor
  · rfl
  · decide

/-- Claim C5 (amended): enrollment with zero surviving embeddings fails
with `success = False` and message `"No face detected in any of the
photos"`, and returns the vector index completely unchanged — nothing
is inserted. -/
theorem register_zero_photos_amended (sqrtF : α → α) (db : VDB α)
    (student_id : String) (metadata : List (String × String)) :
    registerStudent sqrtF db [] student_id metadata =
      ({ success := false,
         message := "No face detected in any of the photos" }, db) := rfl

/-- Claim C6: for a valid face observation the quality score is the
arithmetic mean of exactly the four sub-scores of the claim — detector
confidence, capped-and-rescaled face-area ratio, edge-energy variance
normalized against the empirical cap 500, and brightness closeness to
the mid-point 128 — and always lies in `[0, 1]`. -/
theorem estimate_quality_spec (confidence : α) (bw bh imgH imgW : Int)
    (lapVar brightness : α)
    (hc0 : 0 ≤ confidence) (hc1 : confidence ≤ 1)
    (hbw : 0 ≤ bw) (hbh : 0 ≤ bh) (hH : 0 < imgH) (hW : 0 < imgW)
    (hlap : 0 ≤ lapVar) (hb0 : 0 ≤ brightness) (hb1 : brightness ≤ 255) :
    estimateQuality confidence bw bh imgH imgW lapVar brightness =
      (confidence
        + min (((bw * bh : Int) : α) / ((imgH * imgW : Int) : α)) (1 / 2) * 2
        + min (lapVar / 500) 1
        + (1 - |brightness - 128| / 128)) / 4 ∧
    0 ≤ estimateQuality confidence bw bh imgH imgW lapVar brightness ∧
    estimateQuality confidence bw bh imgH imgW lapVar brightness ≤ 1 := by
  have hratio : (0 : α) ≤ ((bw * bh : Int) : α) / ((imgH * imgW : Int) : α) := by
    apply div_nonneg
    · exact_mod_cast mul_nonneg hbw hbh
    · exact_mod_cast le_of_lt (mul_pos hH hW)
  have hs2lo : (0 : α) ≤ min (((bw * bh : Int) : α) / ((imgH * imgW : Int) : α)) (1 / 2) * 2 := by
    apply mul_nonneg _ (by norm_num)
    exact le_min hratio (by norm_num)
  have hs2hi : min (((bw * bh : Int) : α) / ((imgH * imgW : Int) : α)) (1 / 2) * 2 ≤ 1 := by
    have := min_le_right (((bw * bh : Int) : α) / ((imgH * imgW : Int) : α)) (1 / 2)
    nlinarith
  have hs3lo : (0 : α) ≤ min (lapVar / 500) 1 :=
    le_min (div_nonneg hlap (by norm_num)) (by norm_num)
  have hs3hi : min (lapVar / 500) (1 : α) ≤ 1 := min_le_right _ _
  have habs : |brightness - 128| ≤ 128 := by
    rw [abs_le]
    constructor <;> linarith
  have hs4lo : (0 : α) ≤ 1 - |brightness - 128| / 128 := by
    have h128 : |brightness - 128| / 128 ≤ 1 := by
      rw [div_le_one (by norm_num : (0 : α) < 128)]
      exact habs
    linarith
  have hs4hi : (1 : α) - |brightness - 128| / 128 ≤ 1 := by
    have := abs_nonneg (brightness - 128)
    have : (0 : α) ≤ |brightness - 128| / 128 := div_nonneg this (by norm_num)
    linarith
  refine ⟨rfl, ?_, ?_⟩
  · unfold estimateQuality
    apply div_nonneg _ (by norm_num)
    linarith
  · unfold estimateQuality
    rw [div_le_one (by norm_num : (0 : α) < 4)]
    linarith

/-- Witness for C6 at a concrete observation. -/
theorem estimate_quality_spec_witness :
    estimateQuality (1 : ℚ) 60 60 100 100 100 128 =
      ((1 : ℚ)
        + min (((60 * 60 : Int) : ℚ) / ((100 * 100 : Int) : ℚ)) (1 / 2) * 2
        + min ((100 : ℚ) / 500) 1
        + (1 - |(128 : ℚ) - 128| / 128)) / 4 ∧
    0 ≤ estimateQuality (1 : ℚ) 60 60 100 100 100 128 ∧
    estimateQuality (1 : ℚ) 60 60 100 100 100 128 ≤ 1 :=
  estimate_quality_spec 1 60 60 100 100 100 128 (by norm_num) (by norm_num)
    (by norm_num) (by norm_num) (by norm_num) (by norm_num) (by norm_num)
    (by norm_num) (by norm_num)

/-- Shared: with a face detected, an acceptable box and an extracted
embedding of norm below `1e-3`, `classify_failure` answers
`embedding_failed` (rule 4 of the decision table). -/
lemma classify_low_norm_embedding_failed (sqrtF : α → α) (fi : FaceInfo α)
    (e : List α) (sim? : Option α) (t : α)
    (hnorm : sqrtF (sumSq e) < 1 / 1000)
    (hw : 50 ≤ fi.box.w) (hh : 50 ≤ fi.box.h) :
    classifyFailure sqrtF true (some fi) (some e) sim? t =
      FailStatus.embeddingFailed := by
  unfold classifyFailure
  rw [if_neg (by simp : ¬ (true = false))]
  rw [if_neg (show ¬ ((match (some fi : Option (FaceInfo α)) with
      | some fi => decide (fi.box.w < 50) || decide (fi.box.h < 50)
      | none => false) = true) by
    simp [not_lt.mpr hw, not_lt.mpr hh])]
  exact if_pos hnorm

/-- Shared: a low-norm embedding sends `classify_failure` to one of the
three statuses that precede the similarity rule. -/
lemma classify_low_norm_result (sqrtF : α → α) (fd : Bool)
    (fi? : Option (FaceInfo α)) (e : List α) (sim? : Option α) (t : α)
    (hnorm : sqrtF (sumSq e) < 1 / 1000) :
    classifyFailure sqrtF fd fi? (some e) sim? t = FailStatus.noFace ∨
    classifyFailure sqrtF fd fi? (some e) sim? t = FailStatus.faceTooSmall ∨
    classifyFailure sqrtF fd fi? (some e) sim? t =
      FailStatus.embeddingFailed := by
  unfold classifyFailure
  by_cases hfd : fd = false
  · left
    rw [if_pos hfd]
  · rw [if_neg hfd]
    by_cases hbox : (match fi? with
        | some fi => decide (fi.box.w < 50) || decide (fi.box.h < 50)
        | none => false) = true
    · right; left
      rw [if_pos hbox]
    · right; right
      rw [if_neg hbox]
      exact if_pos hnorm

/-- Shared: whenever the extracted embedding has norm below `1e-3`,
`classify_failure` never answers `low_similarity`, whatever the other
inputs are (the norm rule precedes the similarity rule). -/
lemma classify_low_norm_ne_low_similarity (sqrtF : α → α) (fd : Bool)
    (fi? : Option (FaceInfo α)) (e : List α) (sim? : Option α) (t : α)
    (hnorm : sqrtF (sumSq e) < 1 / 1000) :
    classifyFailure sqrtF fd fi? (some e) sim? t ≠
      FailStatus.lowSimilarity := by
  rcases classify_low_norm_result sqrtF fd fi? e sim? t hnorm with h | h | h <;>
    rw [h] <;> decide

/-- Claim C7: an extracted embedding whose norm is below the near-zero
epsilon `1e-3` is classified `embedding_failed`, never
`low_similarity`, regardless of the supplied similarity value: the
degenerate-norm rule is applied before the similarity-threshold rule. -/
theorem low_norm_classified_before_similarity (sqrtF : α → α) (fd : Bool)
    (fi? : Option (FaceInfo α)) (fi : FaceInfo α) (e : List α)
    (sim? : Option α) (t : α)
    (hnorm : sqrtF (sumSq e) < 1 / 1000) :
    classifyFailure sqrtF fd fi? (some e) sim? t ≠
      FailStatus.lowSimilarity ∧
    (50 ≤ fi.box.w → 50 ≤ fi.box.h →
      classifyFailure sqrtF true (some fi) (some e) sim? t =
        FailStatus.embeddingFailed) :=
  ⟨classify_low_norm_ne_low_similarity sqrtF fd fi? e sim? t hnorm,
   fun hw hh =>
     classify_low_norm_embedding_failed sqrtF fi e sim? t hnorm hw hh⟩

/-- Witness for C7: the spec scenario — an embedding of norm `1e-6` on
an otherwise successful pipeline, with a below-threshold similarity
supplied. -/
theorem low_norm_classified_before_similarity_witness :
    ((fun x : ℚ => x) (sumSq [(1 : ℚ) / 1000000]) < 1 / 1000) ∧
    (classifyFailure (fun x : ℚ => x) true (some ⟨⟨0, 0, 100, 100⟩, 9 / 10⟩)
        (some [(1 : ℚ) / 1000000]) (some (1 / 10)) (45 / 100) ≠
      FailStatus.lowSimilarity ∧
    (50 ≤ (⟨⟨0, 0, 100, 100⟩, (9 : ℚ) / 10⟩ : FaceInfo ℚ).box.w →
      50 ≤ (⟨⟨0, 0, 100, 100⟩, (9 : ℚ) / 10⟩ : FaceInfo ℚ).box.h →
      classifyFailure (fun x : ℚ => x) true (some ⟨⟨0, 0, 100, 100⟩, 9 / 10⟩)
          (some [(1 : ℚ) / 1000000]) (some (1 / 10)) (45 / 100) =
        FailStatus.embeddingFailed)) :=
  ⟨by norm_num [sumSq],
   low_norm_classified_before_similarity (fun x : ℚ => x) true
     (some ⟨⟨0, 0, 100, 100⟩, 9 / 10⟩) ⟨⟨0, 0, 100, 100⟩, 9 / 10⟩
     [(1 : ℚ) / 1000000] (some (1 / 10)) (45 / 100) (by norm_num [sumSq])⟩

/-- Claim C8: a detected face whose bounding box is below the 50 px
minimum in either dimension is rejected by `align_face` before any
quality scoring happens (the pipeline never reaches
`estimate_quality`), and `classify_failure` reports `face_too_small`
regardless of the detector confidence. -/
theorem small_face_rejected_before_quality (imgH imgW : Int)
    (fi : FaceInfo α) (lapVar brightness : α) (sqrtF : α → α)
    (e? : Option (List α)) (sim? : Option α) (t : α)
    (hsmall : fi.box.w < 50 ∨ fi.box.h < 50) :
    alignFace imgH imgW fi = none ∧
    preprocessQuality (some fi) imgH imgW lapVar brightness = none ∧
    classifyFailure sqrtF true (some fi) e? sim? t =
      FailStatus.faceTooSmall := by
  have h1 : alignFace imgH imgW fi = none := by
    unfold alignFace
    rw [if_pos hsmall]
  refine ⟨h1, ?_, ?_⟩
  · simp only [preprocessQuality]
    rw [h1]
  · unfold classifyFailure
    rw [if_neg (by simp : ¬ (true = false))]
    exact if_pos (show (match (some fi : Option (FaceInfo α)) with
        | some fi => decide (fi.box.w < 50) || decide (fi.box.h < 50)
        | none => false) = true by
      rcases hsmall with h | h <;> simp [h])

/-- Witness for C8: the spec scenario — a 30×40 px box with high
detector confidence. -/
theorem small_face_rejected_before_quality_witness :
    ((⟨⟨10, 10, 30, 40⟩, (99 : ℚ) / 100⟩ : FaceInfo ℚ).box.w < 50 ∨
      (⟨⟨10, 10, 30, 40⟩, (99 : ℚ) / 100⟩ : FaceInfo ℚ).box.h < 50) ∧
    (alignFace 480 640 (⟨⟨10, 10, 30, 40⟩, (99 : ℚ) / 100⟩ : FaceInfo ℚ) = none ∧
    preprocessQuality (some ⟨⟨10, 10, 30, 40⟩, (99 : ℚ) / 100⟩) 480 640
      (100 : ℚ) 128 = none ∧
    classifyFailure (fun x : ℚ => x) true (some ⟨⟨10, 10, 30, 40⟩, 99 / 100⟩)
      (some [1, 0]) (some 1) (45 / 100) = FailStatus.faceTooSmall) :=
  ⟨by decide,
   small_face_rejected_before_quality 480 640 ⟨⟨10, 10, 30, 40⟩, 99 / 100⟩
     100 128 (fun x : ℚ => x) (some [1, 0]) (some 1) (45 / 100) (by decide)⟩

/-! ### Helper lemmas about norms and mean aggregation -/

lemma sumSq_nonneg (v : List α) : 0 ≤ sumSq v := by
  induction v with
  | nil => simp [sumSq]
  | cons x xs ih => simpa [sumSq] using add_nonneg (mul_self_nonneg x) ih

lemma sumSq_map_div (v : List α) (c : α) :
    sumSq (v.map (fun x => x / c)) = sumSq v / (c * c) := by
  induction v with
  | nil => simp [sumSq]
  | cons x xs ih =>
    simp only [List.map_cons, sumSq, ih]
    rw [div_mul_div_comm, div_add_div_same]

lemma sumSq_npNormalize (v : List ℝ) (h : sumSq v ≠ 0) :
    sumSq (npNormalize Real.sqrt v) = 1 := by
  unfold npNormalize npNorm
  rw [sumSq_map_div, Real.mul_self_sqrt (sumSq_nonneg v), div_self h]

lemma normalizeL2_npNormalize (v : List ℝ) (h : sumSq v ≠ 0) :
    normalizeL2 Real.sqrt (npNormalize Real.sqrt v) =
      npNormalize Real.sqrt v := by
  unfold normalizeL2
  rw [sumSq_npNormalize v h, if_neg one_ne_zero, Real.sqrt_one]
  simp

lemma npMean_single (e : List α) : npMean [e] = e := by
  simp [npMean]

/-- Claim C4: whenever at least one photo survives enrollment, the
vector inserted into the index is the element-wise arithmetic mean of
the surviving embeddings renormalized to unit length (the cosine-side
renormalization inside `add_embedding` is the identity on it), and
with exactly one survivor the inserted vector is that photo's raw
embedding normalized to unit length. -/
theorem register_signature_normalized_mean (db : VDB ℝ)
    (embs : List (List ℝ)) (sid : String) (meta : List (String × String))
    (hne : embs ≠ [])
    (hmetric : db.metric = VMetric.cosine)
    (hnz : sumSq (npMean embs) ≠ 0) :
    (registerStudent Real.sqrt db embs sid meta).2.vectors =
      db.vectors ++ [npNormalize Real.sqrt (npMean embs)] ∧
    ∀ e, embs = [e] →
      (registerStudent Real.sqrt db embs sid meta).2.vectors =
        db.vectors ++ [npNormalize Real.sqrt e] := by
  cases embs with
  | nil => exact absurd rfl hne
  | cons e rest =>
    cases rest with
    | nil =>
      have hm : npMean [e] = e := npMean_single e
      have hnz' : sumSq e ≠ 0 := by rwa [hm] at hnz
      have hkey : (registerStudent Real.sqrt db [e] sid meta).2.vectors =
          db.vectors ++ [npNormalize Real.sqrt e] := by
        simp only [registerStudent, List.length_nil, lt_irrefl, if_false,
          addEmbedding, hmetric, if_pos]
        rw [normalizeL2_npNormalize e hnz']
      refine ⟨by rw [hkey, hm], ?_⟩
      intro e' he'
      injection he' with h1 _
      subst h1
      exact hkey
    | cons e2 rest2 =>
      constructor
      · have hpos : 0 < (e2 :: rest2).length := by simp
        simp only [registerStudent, if_pos hpos, addEmbedding, hmetric,
          if_pos]
        rw [normalizeL2_npNormalize _ hnz]
      · intro e' he'
        simp at he'

/-- Witness for C4 at the single surviving embedding `[3, 4]`. -/
theorem register_signature_normalized_mean_witness :
    (([[(3 : ℝ), 4]] : List (List ℝ)) ≠ []) ∧
    sumSq (npMean [[(3 : ℝ), 4]]) ≠ 0 ∧
    ((registerStudent Real.sqrt ⟨128, VMetric.cosine, [], []⟩
        [[(3 : ℝ), 4]] "S1" []).2.vectors =
      [] ++ [npNormalize Real.sqrt (npMean [[(3 : ℝ), 4]])] ∧
    ∀ e, ([[(3 : ℝ), 4]] : List (List ℝ)) = [e] →
      (registerStudent Real.sqrt ⟨128, VMetric.cosine, [], []⟩
          [[(3 : ℝ), 4]] "S1" []).2.vectors =
        [] ++ [npNormalize Real.sqrt e]) := by
  have hnz : sumSq (npMean [[(3 : ℝ), 4]]) ≠ 0 := by
    rw [npMean_single]
    norm_num [sumSq]
  exact ⟨by simp, hnz,
    register_signature_normalized_mean ⟨128, VMetric.cosine, [], []⟩
      [[(3 : ℝ), 4]] "S1" [] (by simp) rfl hnz⟩

/-- Claim C10: enrollment has no degenerate-norm guard — any nonempty
list of surviving embeddings (including one whose mean is the zero
vector) is aggregated, divided by its norm without any check, inserted
into the index, and reported as success; identification, by contrast,
classifies an embedding of norm below `1e-3` as `embedding_failed`. -/
theorem enrollment_no_degenerate_norm_guard :
    (∀ (db : VDB ℝ) (embs : List (List ℝ)) (sid : String)
        (meta : List (String × String)), embs ≠ [] →
        (registerStudent Real.sqrt db embs sid meta).1.success = true ∧
        (registerStudent Real.sqrt db embs sid meta).2.vectors.length =
          db.vectors.length + 1) ∧
    (∀ (fi : FaceInfo ℝ) (e : List ℝ) (sim? : Option ℝ) (t : ℝ),
        Real.sqrt (sumSq e) < 1 / 1000 → 50 ≤ fi.box.w → 50 ≤ fi.box.h →
        classifyFailure Real.sqrt true (some fi) (some e) sim? t =
          FailStatus.embeddingFailed) := by
  constructor
  · intro db embs sid meta hne
    cases embs with
    | nil => exact absurd rfl hne
    | cons e rest =>
      refine ⟨rfl, ?_⟩
      simp [registerStudent, addEmbedding]
  · intro fi e sim? t hnorm hw hh
    exact classify_low_norm_embedding_failed Real.sqrt fi e sim? t hnorm hw hh

/-- Witness for C10: two surviving embeddings whose mean is the zero
vector are still enrolled with success, and a zero (degenerate)
embedding is classified `embedding_failed` on the identification
side. -/
theorem enrollment_no_degenerate_norm_guard_witness :
    (([[(1 : ℝ), 0], [-1, 0]] : List (List ℝ)) ≠ [] ∧
      (registerStudent Real.sqrt ⟨128, VMetric.cosine, [], []⟩
          [[(1 : ℝ), 0], [-1, 0]] "S1" []).1.success = true ∧
      (registerStudent Real.sqrt ⟨128, VMetric.cosine, [], []⟩
          [[(1 : ℝ), 0], [-1, 0]] "S1" []).2.vectors.length =
        ([] : List (List ℝ)).length + 1) ∧
    classifyFailure Real.sqrt true
        (some ⟨⟨0, 0, 100, 100⟩, 1⟩) (some [(0 : ℝ), 0]) (some (1 / 2))
        (45 / 100) = FailStatus.embeddingFailed := by
  constructor
  · refine ⟨by simp, ?_⟩
    exact enrollment_no_degenerate_norm_guard.1 ⟨128, VMetric.cosine, [], []⟩
      [[(1 : ℝ), 0], [-1, 0]] "S1" [] (by simp)
  · exact enrollment_no_degenerate_norm_guard.2 ⟨⟨0, 0, 100, 100⟩, 1⟩
      [(0 : ℝ), 0] (some (1 / 2)) (45 / 100)
      (by norm_num [sumSq, Real.sqrt_zero]) (by norm_num) (by norm_num)

/-- Claim C1 (code bug): removing the sole entry of the index is a
no-op — the guard `if all_embeddings:` in `remove_embedding` skips
both the index rebuild and the metadata replacement when no other
entry exists, so the entry count stays 1 instead of dropping to 0,
contradicting the method's own docstring and the spec. -/
theorem remove_sole_entry_is_noop :
    removeEmbedding
        (⟨2, VMetric.cosine, [[(1 : ℚ), 0]], [(0, ⟨"S1", []⟩)]⟩ : VDB ℚ) 0 =
      (⟨2, VMetric.cosine, [[(1 : ℚ), 0]], [(0, ⟨"S1", []⟩)]⟩ : VDB ℚ) ∧
    (getStatistics (removeEmbedding
        (⟨2, VMetric.cosine, [[(1 : ℚ), 0]], [(0, ⟨"S1", []⟩)]⟩ : VDB ℚ)
        0)).total_vectors = 1 ∧
    (getStatistics (removeEmbedding
        (⟨2, VMetric.cosine, [[(1 : ℚ), 0]], [(0, ⟨"S1", []⟩)]⟩ : VDB ℚ)
        0)).metadata_entries = 1 :=
  ⟨rfl, rfl, rfl⟩

/-! ### The rebuild performed by `remove_embedding` on a consistent
index with at least one surviving entry (supporting development for
the sole-entry divergence recorded above) -/

/-- Consecutive re-keying of metadata records starting at key `c`. -/
def numberFrom (f : Nat → MetaEntry) : Nat → List Nat → List (Int × MetaEntry)
  | _, [] => []
  | c, i :: is => ((c : Int), f i) :: numberFrom f (c + 1) is

lemma numberFrom_append (f : Nat → MetaEntry) (l1 : List Nat) :
    ∀ (l2 : List Nat) (c : Nat),
      numberFrom f c (l1 ++ l2) =
        numberFrom f c l1 ++ numberFrom f (c + l1.length) l2 := by
  induction l1 with
  | nil => intro l2 c; simp [numberFrom]
  | cons i is ih =>
    intro l2 c
    simp only [List.cons_append, numberFrom, List.length_cons, List.append_eq, ih]
    rw [show c + (is.length + 1) = c + 1 + is.length from by omega]

lemma numberFrom_range'_same (f : Nat → MetaEntry) :
    ∀ (b a : Nat), numberFrom f a (List.range' a b) =
      (List.range' a b).map (fun (j : Nat) => ((j : Int), f j)) := by
  intro b
  induction b with
  | zero => intro a; simp [numberFrom, List.range']
  | succ b ih =>
    intro a
    rw [show List.range' a (b + 1) = a :: List.range' (a + 1) b from by
      simpa using List.range'_succ a b 1]
    simp only [numberFrom, List.map_cons, ih (a + 1)]

lemma numberFrom_range'_shift (f : Nat → MetaEntry) :
    ∀ (b a : Nat), numberFrom f a (List.range' (a + 1) b) =
      (List.range' a b).map (fun (j : Nat) => ((j : Int), f (j + 1))) := by
  intro b
  induction b with
  | zero => intro a; simp [numberFrom, List.range']
  | succ b ih =>
    intro a
    rw [show List.range' (a + 1) (b + 1) = (a + 1) :: List.range' (a + 2) b from by
      simpa using List.range'_succ (a + 1) b 1]
    rw [show List.range' a (b + 1) = a :: List.range' (a + 1) b from by
      simpa using List.range'_succ a b 1]
    simp only [numberFrom, List.map_cons]
    exact congrArg _ (ih (a + 1))

lemma map_getD_range' (vs : List (List α)) :
    ∀ (b a : Nat), a + b ≤ vs.length →
      (List.range' a b).map (fun i => vs.getD i []) = (vs.drop a).take b := by
  intro b
  induction b with
  | zero => intro a h; simp [List.range']
  | succ b ih =>
    intro a h
    have ha : a < vs.length := by omega
    rw [show List.range' a (b + 1) = a :: List.range' (a + 1) b from by
      simpa using List.range'_succ a b 1]
    rw [List.map_cons, ih (a + 1) (by omega), List.drop_eq_getElem_cons ha,
      List.take_succ_cons, List.getD_eq_getElem vs [] ha]

lemma range_split (m p : Nat) (hp : p ≤ m) :
    List.range m = List.range' 0 p ++ List.range' p (m - p) := by
  rw [List.range_eq_range']
  have h := List.range'_append 0 p (m - p) 1
  simp only [one_mul, Nat.zero_add] at h
  rw [show m - p + p = m from by omega] at h
  exact h.symm

lemma filter_range_erase (n p : Nat) (hp : p < n) :
    (List.range n).filter (fun i => decide (i ≠ p)) =
      List.range' 0 p ++ List.range' (p + 1) (n - p - 1) := by
  rw [range_split n p (le_of_lt hp), List.filter_append]
  have h1 : (List.range' 0 p).filter (fun i => decide (i ≠ p)) =
      List.range' 0 p :=
    List.filter_eq_self.mpr (fun a ha => by
      have := List.mem_range'_1.mp ha
      simp only [decide_eq_true_eq]
      omega)
  have h2 : List.range' p (n - p) = p :: List.range' (p + 1) (n - p - 1) := by
    rw [show n - p = (n - p - 1) + 1 from by omega]
    simpa using List.range'_succ p (n - p - 1) 1
  have h3 : (List.range' (p + 1) (n - p - 1)).filter
      (fun i => decide (i ≠ p)) = List.range' (p + 1) (n - p - 1) :=
    List.filter_eq_self.mpr (fun a ha => by
      have := List.mem_range'_1.mp ha
      simp only [decide_eq_true_eq]
      omega)
  rw [h1, h2, List.filter_cons_of_neg (by simp), h3]

lemma removeStep_foldl (db : VDB α) (p : Nat) (f : Nat → MetaEntry)
    (H1 : ∀ i : Nat, i < db.vectors.length →
      dictGet db.metadata (i : Int) = some (f i)) :
    ∀ (b a : Nat), a + b ≤ db.vectors.length →
      ∀ (es : List (List α)) (ms : List (Int × MetaEntry)) (c : Nat),
      (List.range' a b).foldl (removeStep db (p : Int)) (es, ms, c) =
        (es ++ ((List.range' a b).filter (fun i => decide (i ≠ p))).map
            (fun i => db.vectors.getD i []),
         ms ++ numberFrom f c
            ((List.range' a b).filter (fun i => decide (i ≠ p))),
         c + ((List.range' a b).filter (fun i => decide (i ≠ p))).length) := by
  intro b
  induction b with
  | zero => intro a h es ms c; simp [List.range', numberFrom]
  | succ b ih =>
    intro a h es ms c
    rw [show List.range' a (b + 1) = a :: List.range' (a + 1) b from by
      simpa using List.range'_succ a b 1]
    rw [List.foldl_cons]
    by_cases hap : a = p
    · rw [List.filter_cons_of_neg (by simp [hap])]
      have hstep : removeStep db (p : Int) (es, ms, c) a = (es, ms, c) := by
        unfold removeStep
        rw [if_pos (by exact_mod_cast hap)]
      rw [hstep]
      exact ih (a + 1) (by omega) es ms c
    · have ha : a < db.vectors.length := by omega
      rw [List.filter_cons_of_pos (by simp [hap])]
      have hstep : removeStep db (p : Int) (es, ms, c) a =
          (es ++ [db.vectors.getD a []], ms ++ [((c : Int), f a)], c + 1) := by
        unfold removeStep
        rw [if_neg (by exact_mod_cast hap), H1 a ha]
      rw [hstep, ih (a + 1) (by omega)]
      simp only [List.map_cons, numberFrom, List.length_cons,
        List.append_assoc, List.singleton_append, Prod.mk.injEq]
      refine ⟨by trivial, by trivial, by omega⟩

/-- On a consistent index (metadata defined at every position) holding
at least two entries, `remove_embedding` performs the full rebuild the
spec describes: the survivors keep their relative order, positions are
renumbered consecutively from 0, the metadata is re-keyed to the new
positions, and both entry counts drop by one.  Together with the
sole-entry evaluation above, this isolates the divergence of
`remove_embedding` from its documented behaviour to the one-entry
case. -/
theorem remove_rebuild_characterization (db : VDB α) (p : Nat)
    (f : Nat → MetaEntry)
    (H1 : ∀ i : Nat, i < db.vectors.length →
      dictGet db.metadata (i : Int) = some (f i))
    (hp : p < db.vectors.length) (h2 : 2 ≤ db.vectors.length) :
    (removeEmbedding db (p : Int)).vectors =
      db.vectors.take p ++ db.vectors.drop (p + 1) ∧
    (removeEmbedding db (p : Int)).metadata =
      (List.range (db.vectors.length - 1)).map
        (fun (j : Nat) => ((j : Int), f (if j < p then j else j + 1))) ∧
    (removeEmbedding db (p : Int)).vectors.length =
      db.vectors.length - 1 ∧
    (removeEmbedding db (p : Int)).metadata.length =
      db.vectors.length - 1 := by
  set n := db.vectors.length with hn
  have hfold := removeStep_foldl db p f H1 n 0 (by omega) [] [] 0
  rw [← List.range_eq_range'] at hfold
  have hfilter := filter_range_erase n p hp
  have hvec : ((List.range n).filter (fun i => decide (i ≠ p))).map
      (fun i => db.vectors.getD i []) =
      db.vectors.take p ++ db.vectors.drop (p + 1) := by
    rw [hfilter, List.map_append,
      map_getD_range' db.vectors p 0 (by omega),
      map_getD_range' db.vectors (n - p - 1) (p + 1) (by omega),
      List.drop_zero]
    congr 1
    exact List.take_of_length_le (by
      rw [List.length_drop]
      omega)
  have hmeta : numberFrom f 0
      ((List.range n).filter (fun i => decide (i ≠ p))) =
      (List.range (n - 1)).map
        (fun (j : Nat) => ((j : Int), f (if j < p then j else j + 1))) := by
    rw [hfilter, numberFrom_append,
      show (List.range' 0 p).length = p from by simp,
      Nat.zero_add, numberFrom_range'_same f p 0]
    rw [show List.range' (p + 1) (n - p - 1) =
        List.range' (p + 1) (n - 1 - p) from by
      rw [show n - p - 1 = n - 1 - p from by omega]]
    rw [numberFrom_range'_shift f (n - 1 - p) p]
    rw [range_split (n - 1) p (by omega), List.map_append]
    congr 1
    · exact (List.map_congr_left (fun a ha => by
        have := List.mem_range'_1.mp ha
        rw [if_pos (by omega)])).symm
    · exact (List.map_congr_left (fun a ha => by
        have := List.mem_range'_1.mp ha
        rw [if_neg (by omega)])).symm
  have hlen : (db.vectors.take p ++ db.vectors.drop (p + 1)).length =
      n - 1 := by
    rw [List.length_append, List.length_take, List.length_drop]
    omega
  have hne : ¬ (db.vectors.take p ++ db.vectors.drop (p + 1)).isEmpty
      = true := by
    rw [List.isEmpty_iff]
    intro hempty
    rw [hempty] at hlen
    simp at hlen
    omega
  have hremove : removeEmbedding db (p : Int) =
      { db with
        vectors := db.vectors.take p ++ db.vectors.drop (p + 1),
        metadata := (List.range (n - 1)).map
          (fun (j : Nat) => ((j : Int), f (if j < p then j else j + 1))) } := by
    simp only [removeEmbedding]
    rw [hfold]
    simp only [List.nil_append, hvec, hmeta]
    rw [if_neg hne]
  rw [hremove]
  refine ⟨rfl, rfl, hlen, by simp⟩

end StudentID
